import Mathlib

/-!
Verification of the dooit-rs task sorting engine, filter stage and store
reader against their specification.

Embedding choices:
* `PathBuf` task names are modelled as `List Nat` (the list of path
  components); `PathBuf`'s derived `Ord` compares components
  lexicographically, which is the lexicographic order on lists.
* `DateTime<Utc>` instants are modelled as `Int` timestamps; the derived
  `Ord` on instants is the linear order on `Int`.
* Rust's `Vec::sort_by_key` is a stable ascending sort by the given key; it
  is modelled by `List.insertionSort`, which is stable and sorts ascending
  with respect to the supplied total preorder.
* The `task.due.expect("partition with due dates")` inside
  `sort_tasks_due_date` can panic; panicking is modelled by returning
  `none`, so `sort_tasks_due_date` (and hence `sort_tasks`) returns an
  `Option`.  The guard `p.1.all (fun t => t.due.isSome)` is exactly the
  condition under which every call of the key extractor succeeds.
-/

namespace Dooit

/-- The three-tier urgency enumeration; Rust derives `Ord`, which orders by
declaration order: `Low < Medium < High`. -/
inductive Urgency
  | Low
  | Medium
  | High
deriving DecidableEq, Repr

/-- The rank used by the derived `Ord` on `Urgency` (declaration order). -/
def Urgency.toNat : Urgency → Nat
  | .Low => 0
  | .Medium => 1
  | .High => 2

/-- The task record from `dooit-tasks/src/tasks.rs`. -/
structure Task where
  /-- hierarchical path-like name (`PathBuf`), one entry per component -/
  name : List Nat
  description : Option String
  /-- optional due instant (`DateTime<Utc>` as a timestamp) -/
  due : Option Int
  urgency : Urgency
  completed : Bool
deriving DecidableEq, Repr

/-- The six sort modes of `SortMode` in `dooit-tasks/src/tasks.rs`. -/
inductive SortMode
  | UrgencyAscending
  | UrgencyDescending
  | DaysLeftAscending
  | DaysLeftDescending
  | NameAscending
  | NameDescending
deriving DecidableEq, Repr

/-- Comparison used by `sort_by_key(|task| task.name.clone())`. -/
def nameLe (a b : Task) : Prop := a.name ≤ b.name

instance : DecidableRel nameLe := fun a b =>
  inferInstanceAs (Decidable (a.name ≤ b.name))

/-- Comparison used by `sort_by_key(|task| task.urgency)` (derived `Ord`). -/
def urgLe (a b : Task) : Prop := a.urgency.toNat ≤ b.urgency.toNat

instance : DecidableRel urgLe := fun a b =>
  inferInstanceAs (Decidable (a.urgency.toNat ≤ b.urgency.toNat))

/-- Comparison of the keys extracted by
`sort_by_key(|task| task.due.expect("partition with due dates"))`.  Only the
`some`/`some` case is reachable: the key extractor is applied solely to the
partition of tasks whose `due` is present (the other cases correspond to a
panic of `expect`, modelled by the `none` result of `sort_tasks_due_date`;
they are given the values of the dated-before-undated partition order). -/
def dueLe (a b : Option Int) : Prop :=
  match a, b with
  | some x, some y => x ≤ y
  | some _, none => True
  | none, some _ => False
  | none, none => True

instance (a b : Option Int) : Decidable (dueLe a b) :=
  match a, b with
  | some x, some y => inferInstanceAs (Decidable (x ≤ y))
  | some _, none => inferInstanceAs (Decidable True)
  | none, some _ => inferInstanceAs (Decidable False)
  | none, none => inferInstanceAs (Decidable True)

/-- The due-date key comparison lifted to tasks. -/
def taskDueLe (a b : Task) : Prop := dueLe a.due b.due

instance : DecidableRel taskDueLe := fun a b =>
  inferInstanceAs (Decidable (dueLe a.due b.due))

/-- Model of `fn sort_tasks_due_date`: partition into tasks with and without a due
date, stably sort the dated ones ascending by due date, append the undated
ones.  The key extractor `task.due.expect(..)` panics when a task in the
first partition has no due date; a panic is modelled by the `none` result. -/
def sort_tasks_due_date (tasks : List Task) : Option (List Task) :=
  let p := tasks.partition fun task => task.due.isSome
  if p.1.all fun task => task.due.isSome then
    some (p.1.insertionSort taskDueLe ++ p.2)
  else
    none

/-- Model of `fn sort_tasks_name`: stable ascending sort by name. -/
def sort_tasks_name (tasks : List Task) : List Task :=
  tasks.insertionSort nameLe

/-- Model of `fn sort_tasks_urgency`: stable ascending sort by urgency. -/
def sort_tasks_urgency (tasks : List Task) : List Task :=
  tasks.insertionSort urgLe

/-- Model of `pub fn sort_tasks`: the six mode pipelines, composed exactly as in the
source (`reverse` calls included).  A `none` result models a panic of the
due-date pass. -/
def sort_tasks (tasks : List Task) (mode : SortMode) : Option (List Task) :=
  match mode with
  | .UrgencyAscending =>
    (sort_tasks_due_date (sort_tasks_name tasks)).map fun sorted =>
      sort_tasks_urgency sorted
  | .UrgencyDescending =>
    (sort_tasks_due_date (sort_tasks_name tasks)).map fun sorted =>
      (sort_tasks_urgency sorted.reverse).reverse
  | .DaysLeftAscending =>
    sort_tasks_due_date ((sort_tasks_urgency (sort_tasks_name tasks).reverse).reverse)
  | .DaysLeftDescending =>
    (sort_tasks_due_date (sort_tasks_urgency (sort_tasks_name tasks).reverse)).map
      fun sorted => sorted.reverse
  | .NameAscending =>
    (sort_tasks_due_date tasks).map fun sorted =>
      sort_tasks_name ((sort_tasks_urgency sorted.reverse).reverse)
  | .NameDescending =>
    (sort_tasks_due_date tasks).map fun sorted =>
      (sort_tasks_name (sort_tasks_urgency sorted.reverse)).reverse

/-- The filter closure of the `List` arm in `dooit-rs/src/main.rs`:
`(!task.completed || completed) && (task.due.map(|date| date >= today).unwrap_or(true) || overdue)`. -/
def list_filter (completed overdue : Bool) (today : Int) (task : Task) : Bool :=
  (!task.completed || completed) &&
    ((task.due.map fun date => decide (today ≤ date)).getD true || overdue)

/-- State of the data directory as seen by `dirs.rs`: `missing` when the
root directory does not exist, `present tasks` when the directory tree
exists and deserializes to `tasks`.  (I/O and parse failures inside an
existing tree are outside the scope of the claims and are not modelled.) -/
inductive DirState
  | missing
  | present (tasks : List Task)
deriving DecidableEq, Repr

/-- Whether `data_dir.exists()` returns true. -/
def DirState.exists : DirState → Bool
  | .missing => false
  | .present _ => true

/-- Model of `pub fn get_tasks` in `dirs.rs`: `read_dir` on a missing root errors
with `NotFound`, which is mapped to `Ok(Vec::new())`; an existing tree is
read recursively. -/
def get_tasks : DirState → Except String (List Task)
  | .missing => .ok []
  | .present tasks => .ok tasks

/-- Observable outcome of the `List` subcommand in `main.rs`. -/
inductive ListOutcome
  | panicked (msg : String)
  | ioError (msg : String)
  | noTasks
  | printed (tasks : List Task)
deriving DecidableEq, Repr

/-- The `Mode::List` arm of `main` in `dooit-rs/src/main.rs`: panic when the
data directory does not exist; otherwise read tasks, filter them, print the
fixed empty message when nothing survives, else sort and print. -/
def list_command (dir : DirState) (sort : SortMode) (completed overdue : Bool)
    (today : Int) : ListOutcome :=
  if dir.exists = false then
    .panicked "The task directory is empty, add some by running: `dooit-rs add`"
  else
    match get_tasks dir with
    | .error e => .ioError e
    | .ok tasks =>
      let filtered := tasks.filter (list_filter completed overdue today)
      if filtered.isEmpty then
        .noTasks
      else
        match sort_tasks filtered sort with
        | some sorted => .printed sorted
        | none => .panicked "partition with due dates"

/-- The tasks of `tasks` carrying a due date, in input order. -/
def withDate (tasks : List Task) : List Task :=
  tasks.filter fun task => task.due.isSome

/-- The tasks of `tasks` without a due date, in input order. -/
def withoutDate (tasks : List Task) : List Task :=
  tasks.filter fun task => !task.due.isSome

/-- Total version of the due-date pass. -/
def sort_tasks_due_date_total (tasks : List Task) : List Task :=
  (withDate tasks).insertionSort taskDueLe ++ withoutDate tasks

/-- Total version of `sort_tasks`. -/
def sort_tasks_total (tasks : List Task) (mode : SortMode) : List Task :=
  match mode with
  | .UrgencyAscending =>
    sort_tasks_urgency (sort_tasks_due_date_total (sort_tasks_name tasks))
  | .UrgencyDescending =>
    (sort_tasks_urgency (sort_tasks_due_date_total (sort_tasks_name tasks)).reverse).reverse
  | .DaysLeftAscending =>
    sort_tasks_due_date_total ((sort_tasks_urgency (sort_tasks_name tasks).reverse).reverse)
  | .DaysLeftDescending =>
    (sort_tasks_due_date_total (sort_tasks_urgency (sort_tasks_name tasks).reverse)).reverse
  | .NameAscending =>
    sort_tasks_name ((sort_tasks_urgency (sort_tasks_due_date_total tasks).reverse).reverse)
  | .NameDescending =>
    (sort_tasks_name (sort_tasks_urgency (sort_tasks_due_date_total tasks).reverse)).reverse

/-- Lexicographic composition of relations: strictly below by `f`, or tied
under `f` and related by `g`. -/
def lexRel {α : Type} (f g : α → α → Prop) (a b : α) : Prop :=
  f a b ∧ (¬ f b a ∨ g a b)

/-- Flipped comparison relations, as used after an odd number of reversals. -/
def nameGe (a b : Task) : Prop := nameLe b a

instance : DecidableRel nameGe := fun a b =>
  inferInstanceAs (Decidable (nameLe b a))

/-- Flipped urgency comparison. -/
def urgGe (a b : Task) : Prop := urgLe b a

instance : DecidableRel urgGe := fun a b =>
  inferInstanceAs (Decidable (urgLe b a))

/-- Flipped due-date key comparison. -/
def taskDueGe (a b : Task) : Prop := taskDueLe b a

instance : DecidableRel taskDueGe := fun a b =>
  inferInstanceAs (Decidable (taskDueLe b a))

instance {α : Type} {f g : α → α → Prop} [DecidableRel f] [DecidableRel g] :
    DecidableRel (lexRel f g) := fun a b =>
  inferInstanceAs (Decidable (f a b ∧ (¬ f b a ∨ g a b)))

/-- UrgencyAscending: urgency ascending, then due-date key, then name. -/
def cmpUA : Task → Task → Prop := lexRel urgLe (lexRel taskDueLe nameLe)

/-- UrgencyDescending: urgency descending, then due-date key, then name. -/
def cmpUD : Task → Task → Prop := lexRel urgGe (lexRel taskDueLe nameLe)

/-- DaysLeftAscending: due-date key (dated first, ascending), then urgency
descending, then name. -/
def cmpDLA : Task → Task → Prop := lexRel taskDueLe (lexRel urgGe nameLe)

/-- DaysLeftDescending: flipped due-date key (undated first, descending),
then urgency descending, then name. -/
def cmpDLD : Task → Task → Prop := lexRel taskDueGe (lexRel urgGe nameLe)

/-- NameAscending: name, then urgency descending, then due-date key. -/
def cmpNA : Task → Task → Prop := lexRel nameLe (lexRel urgGe taskDueLe)

/-- NameDescending: name descending, then urgency descending, then due-date key. -/
def cmpND : Task → Task → Prop := lexRel nameGe (lexRel urgGe taskDueLe)

/-- The composite total preorder according to which each mode sorts. -/
def modeCmp : SortMode → Task → Task → Prop
  | .UrgencyAscending => cmpUA
  | .UrgencyDescending => cmpUD
  | .DaysLeftAscending => cmpDLA
  | .DaysLeftDescending => cmpDLD
  | .NameAscending => cmpNA
  | .NameDescending => cmpND

instance : DecidableRel cmpUA :=
  inferInstanceAs (DecidableRel (lexRel urgLe (lexRel taskDueLe nameLe)))

instance : DecidableRel cmpUD :=
  inferInstanceAs (DecidableRel (lexRel urgGe (lexRel taskDueLe nameLe)))

instance : DecidableRel cmpDLA :=
  inferInstanceAs (DecidableRel (lexRel taskDueLe (lexRel urgGe nameLe)))

instance : DecidableRel cmpDLD :=
  inferInstanceAs (DecidableRel (lexRel taskDueGe (lexRel urgGe nameLe)))

instance : DecidableRel cmpNA :=
  inferInstanceAs (DecidableRel (lexRel nameLe (lexRel urgGe taskDueLe)))

instance : DecidableRel cmpND :=
  inferInstanceAs (DecidableRel (lexRel nameGe (lexRel urgGe taskDueLe)))

instance (m : SortMode) : DecidableRel (modeCmp m) :=
  match m with
  | .UrgencyAscending => inferInstanceAs (DecidableRel cmpUA)
  | .UrgencyDescending => inferInstanceAs (DecidableRel cmpUD)
  | .DaysLeftAscending => inferInstanceAs (DecidableRel cmpDLA)
  | .DaysLeftDescending => inferInstanceAs (DecidableRel cmpDLD)
  | .NameAscending => inferInstanceAs (DecidableRel cmpNA)
  | .NameDescending => inferInstanceAs (DecidableRel cmpND)

/-- Tasks agreeing with `x` on all three sort keys. -/
def sameKeys (x y : Task) : Bool :=
  decide (x.name = y.name ∧ x.urgency = y.urgency ∧ x.due = y.due)

/-- Convenience constructor for example tasks: single-component name `[n]`,
no description, not completed. -/
def mkTask (n : Nat) (due : Option Int) (u : Urgency) : Task :=
  ⟨[n], none, due, u, false⟩

/-- Secondary/tertiary order claimed among tasks of equal urgency: tasks
with a due date before tasks without, ascending due date, remaining ties by
ascending name. -/
def dueThenNameAsc (a b : Task) : Prop :=
  match a.due, b.due with
  | some da, some db => da < db ∨ (da = db ∧ a.name ≤ b.name)
  | some _, none => True
  | none, some _ => False
  | none, none => a.name ≤ b.name

/-- The order claimed for UrgencyDescending (C1): urgency descending first,
then `dueThenNameAsc` among equal urgencies. -/
def urgencyDescOrder (a b : Task) : Prop :=
  b.urgency.toNat < a.urgency.toNat ∨ (a.urgency = b.urgency ∧ dueThenNameAsc a b)

/-- The order claimed for DaysLeftAscending (C2): every dated task before
every undated one, dated tasks ascending by due date. -/
def datedBeforeUndatedAsc (a b : Task) : Prop :=
  match a.due, b.due with
  | some da, some db => da ≤ db
  | some _, none => True
  | none, some _ => False
  | none, none => True

/-- The order claimed for DaysLeftDescending (C3): every undated task before
every dated one, dated tasks descending by due date. -/
def undatedFirstDesc (a b : Task) : Prop :=
  match a.due, b.due with
  | some da, some db => db ≤ da
  | some _, none => False
  | none, some _ => True
  | none, none => True

/-- The DaysLeftAscending pipeline with the urgency sort pass removed, the
comparison pipeline of C4 (the two reversals that bracket the pass are
kept; they cancel). -/
def daysLeftAscending_noUrgency (tasks : List Task) : Option (List Task) :=
  sort_tasks_due_date ((sort_tasks_name tasks).reverse.reverse)

/-- Example input of C1/C6/C8: `[A:Medium, B:High, C:Low]`, no due dates,
names in ascending order. -/
def exMHL : List Task :=
  [mkTask 0 none .Medium, mkTask 1 none .High, mkTask 2 none .Low]

/-- The UrgencyDescending output claimed for `exMHL`: `[B, A, C]`. -/
def exMHL_ud : List Task :=
  [mkTask 1 none .High, mkTask 0 none .Medium, mkTask 2 none .Low]

/-- The UrgencyAscending output of `exMHL`: `[C, A, B]`. -/
def exMHL_ua : List Task :=
  [mkTask 2 none .Low, mkTask 0 none .Medium, mkTask 1 none .High]

/-- Example input of C2: `[A:no-due, B:due=2024-01-02, C:due=2024-01-01]`. -/
def exDates : List Task :=
  [mkTask 0 none .Low, mkTask 1 (some 20240102) .Low, mkTask 2 (some 20240101) .Low]

/-- The DaysLeftAscending output claimed for `exDates`: `[C, B, A]`. -/
def exDates_dla : List Task :=
  [mkTask 2 (some 20240101) .Low, mkTask 1 (some 20240102) .Low, mkTask 0 none .Low]

/-- A dated and an undated task (C3's witness input). -/
def exMixed : List Task := [mkTask 0 (some 5) .Low, mkTask 1 none .Low]

/-- The DaysLeftDescending output of `exMixed`: undated first. -/
def exMixed_dld : List Task := [mkTask 1 none .Low, mkTask 0 (some 5) .Low]

/-- Two tasks sharing the due date 5 with opposite urgency/name order (C4's
counterexample input). -/
def exShared : List Task := [mkTask 0 (some 5) .Low, mkTask 1 (some 5) .High]

/-- Two tasks with distinct due dates (C4's witness input). -/
def exDistinct : List Task := [mkTask 0 (some 5) .Low, mkTask 1 (some 6) .High]

/-- Example input of C5's witness, names in descending order. -/
def exNames : List Task :=
  [mkTask 2 none .Medium, mkTask 1 none .High, mkTask 0 none .Low]

/-- The NameAscending output of `exNames`. -/
def exNames_na : List Task :=
  [mkTask 0 none .Low, mkTask 1 none .High, mkTask 2 none .Medium]

theorem sort_tasks_due_date_eq (tasks : List Task) :
    sort_tasks_due_date tasks = some (sort_tasks_due_date_total tasks) := by
  have hall : ((tasks.filter fun task => task.due.isSome).all
      fun task => task.due.isSome) = true := by
    rw [List.all_eq_true]
    intro x hx
    exact (List.mem_filter.mp hx).2
  simp only [sort_tasks_due_date, List.partition_eq_filter_filter]
  rw [if_pos hall]
  rfl

theorem sort_tasks_eq (tasks : List Task) (mode : SortMode) :
    sort_tasks tasks mode = some (sort_tasks_total tasks mode) := by
  cases mode <;>
    simp [sort_tasks, sort_tasks_total, sort_tasks_due_date_eq]

theorem pairwise_trivial {α : Type} (l : List α) : l.Pairwise fun _ _ => True := by
  induction l with
  | nil => exact List.Pairwise.nil
  | cons a t ih => exact List.Pairwise.cons (fun _ _ => trivial) ih

/-- Stability of `insertionSort` in filter form: the subsequence of elements
of a class that is totally tied under `r` is unchanged by sorting. -/
theorem insertionSort_filter {α : Type} (r : α → α → Prop) [DecidableRel r]
    (p : α → Bool) (hp : ∀ x y, p x = true → p y = true → r x y) (l : List α) :
    (l.insertionSort r).filter p = l.filter p := by
  have hself : (l.filter p).filter p = l.filter p := by
    rw [List.filter_eq_self]
    intro x hx
    exact (List.mem_filter.mp hx).2
  have hsub : List.Sublist (l.filter p) (l.insertionSort r) := by
    apply List.sublist_insertionSort
    · rw [List.pairwise_iff_forall_sublist]
      intro a b hab
      have ha : a ∈ l.filter p := hab.subset (by simp)
      have hb : b ∈ l.filter p := hab.subset (by simp)
      exact hp a b (List.mem_filter.mp ha).2 (List.mem_filter.mp hb).2
    · exact List.filter_sublist l
  have hsub2 : List.Sublist (l.filter p) ((l.insertionSort r).filter p) := by
    have := hsub.filter p
    rwa [hself] at this
  have hlen : ((l.insertionSort r).filter p).length = (l.filter p).length :=
    ((List.perm_insertionSort r l).filter p).length_eq
  exact (hsub2.eq_of_length hlen.symm).symm

/-- A stable ascending sort refines any pairwise property of the input: the
output is pairwise ordered lexicographically by the sort key first and the
input property on ties. -/
theorem insertionSort_pairwise_lex {α : Type} (r : α → α → Prop) [DecidableRel r]
    (htot : ∀ a b, r a b ∨ r b a) (htrans : ∀ a b c, r a b → r b c → r a c)
    {R : α → α → Prop} {l : List α} (h : l.Pairwise R) :
    (l.insertionSort r).Pairwise (lexRel r R) := by
  haveI : IsTotal α r := ⟨htot⟩
  haveI : IsTrans α r := ⟨fun a b c => htrans a b c⟩
  rw [List.pairwise_iff_forall_sublist]
  intro a b hab
  have hr : r a b :=
    List.pairwise_iff_forall_sublist.mp (List.sorted_insertionSort r l) hab
  by_cases hba : r b a
  · refine ⟨hr, Or.inr ?_⟩
    have haa : r a a := (htot a a).elim id id
    have hfilter : [a, b].filter (fun x => decide (r a x ∧ r x a)) = [a, b] := by
      rw [List.filter_eq_self]
      intro x hx
      simp only [List.mem_cons, List.not_mem_nil, or_false] at hx
      rcases hx with hx | hx
      · subst hx; exact decide_eq_true ⟨haa, haa⟩
      · subst hx; exact decide_eq_true ⟨hr, hba⟩
    have h1 : List.Sublist [a, b]
        ((l.insertionSort r).filter (fun x => decide (r a x ∧ r x a))) := by
      have := hab.filter (fun x => decide (r a x ∧ r x a))
      rwa [hfilter] at this
    have h2 : (l.insertionSort r).filter (fun x => decide (r a x ∧ r x a)) =
        l.filter (fun x => decide (r a x ∧ r x a)) := by
      apply insertionSort_filter
      intro x y hx hy
      have hx' := of_decide_eq_true hx
      have hy' := of_decide_eq_true hy
      exact htrans x a y hx'.2 hy'.1
    rw [h2] at h1
    have h3 : List.Sublist [a, b] l := h1.trans (List.filter_sublist l)
    exact List.pairwise_iff_forall_sublist.mp h h3
  · exact ⟨hr, Or.inl hba⟩

/-- A permutation sorted by a total preorder and with each tie class in a
fixed order is unique: two such lists are equal. -/
theorem eq_of_sorted_of_classes {α : Type} (r : α → α → Prop) [DecidableRel r]
    (htot : ∀ a b, r a b ∨ r b a) :
    ∀ (l₁ l₂ : List α), List.Perm l₁ l₂ → l₁.Pairwise r → l₂.Pairwise r →
      (∀ x, l₁.filter (fun y => decide (r x y ∧ r y x)) =
        l₂.filter (fun y => decide (r x y ∧ r y x))) →
      l₁ = l₂ := by
  intro l₁
  induction l₁ with
  | nil =>
    intro l₂ hp _ _ _
    exact (hp.symm.eq_nil).symm
  | cons a t ih =>
    intro l₂ hp hs1 hs2 hf
    cases l₂ with
    | nil => exact absurd hp.eq_nil (List.cons_ne_nil a t)
    | cons b t₂ =>
      have hrab : r a b := by
        have hb : b ∈ a :: t := hp.symm.subset (List.mem_cons_self b t₂)
        rcases List.mem_cons.mp hb with hb | hb
        · cases hb; exact (htot _ _).elim id id
        · exact (List.pairwise_cons.mp hs1).1 b hb
      have hrba : r b a := by
        have ha : a ∈ b :: t₂ := hp.subset (List.mem_cons_self a t)
        rcases List.mem_cons.mp ha with ha | ha
        · cases ha; exact (htot _ _).elim id id
        · exact (List.pairwise_cons.mp hs2).1 a ha
      have haa : r a a := (htot a a).elim id id
      have hfa := hf a
      have hda : (decide (r a a ∧ r a a)) = true := decide_eq_true ⟨haa, haa⟩
      have hdb : (decide (r a b ∧ r b a)) = true := decide_eq_true ⟨hrab, hrba⟩
      simp only [List.filter_cons, hda, hdb, if_true] at hfa
      have hab : a = b := by
        injection hfa with h1 _
      subst hab
      have htails : t = t₂ := by
        apply ih t₂ hp.cons_inv (List.pairwise_cons.mp hs1).2
          (List.pairwise_cons.mp hs2).2
        intro x
        have hfx := hf x
        by_cases hxa : (decide (r x a ∧ r a x)) = true
        · simp only [List.filter_cons, hxa, if_true] at hfx
          injection hfx
        · have hxa' : (decide (r x a ∧ r a x)) = false := by
            revert hxa
            cases decide (r x a ∧ r a x) <;> simp
          simp only [List.filter_cons, hxa', Bool.false_eq_true, if_false] at hfx
          exact hfx
      rw [htails]

theorem nameLe_total : ∀ a b : Task, nameLe a b ∨ nameLe b a :=
  fun a b => le_total a.name b.name

theorem nameLe_trans : ∀ a b c : Task, nameLe a b → nameLe b c → nameLe a c :=
  fun _ _ _ h1 h2 => le_trans h1 h2

theorem urgLe_total : ∀ a b : Task, urgLe a b ∨ urgLe b a :=
  fun a b => Nat.le_total a.urgency.toNat b.urgency.toNat

theorem urgLe_trans : ∀ a b c : Task, urgLe a b → urgLe b c → urgLe a c :=
  fun _ _ _ h1 h2 => Nat.le_trans h1 h2

theorem dueLe_total : ∀ a b : Option Int, dueLe a b ∨ dueLe b a := by
  intro a b
  cases a <;> cases b <;> simp [dueLe]
  omega

theorem dueLe_trans : ∀ a b c : Option Int, dueLe a b → dueLe b c → dueLe a c := by
  intro a b c
  cases a <;> cases b <;> cases c <;> simp [dueLe]
  omega

theorem taskDueLe_total : ∀ a b : Task, taskDueLe a b ∨ taskDueLe b a :=
  fun a b => dueLe_total a.due b.due

theorem taskDueLe_trans : ∀ a b c : Task, taskDueLe a b → taskDueLe b c → taskDueLe a c :=
  fun a b c => dueLe_trans a.due b.due c.due

theorem Urgency.toNat_inj : ∀ {u v : Urgency}, u.toNat = v.toNat → u = v := by
  intro u v
  cases u <;> cases v <;> simp [Urgency.toNat]

theorem nameLe_tie_iff (x y : Task) : (nameLe x y ∧ nameLe y x) ↔ x.name = y.name :=
  ⟨fun h => le_antisymm h.1 h.2, fun h => ⟨le_of_eq h, le_of_eq h.symm⟩⟩

theorem urgLe_tie_iff (x y : Task) : (urgLe x y ∧ urgLe y x) ↔ x.urgency = y.urgency := by
  constructor
  · intro h
    exact Urgency.toNat_inj (Nat.le_antisymm h.1 h.2)
  · intro h
    rw [urgLe, urgLe, h]
    exact ⟨Nat.le_refl _, Nat.le_refl _⟩

theorem taskDueLe_tie_iff (x y : Task) : (taskDueLe x y ∧ taskDueLe y x) ↔ x.due = y.due := by
  unfold taskDueLe
  cases x.due <;> cases y.due <;> simp [dueLe]
  omega

theorem nameGe_tie_iff (x y : Task) : (nameGe x y ∧ nameGe y x) ↔ x.name = y.name := by
  rw [nameGe, nameGe, and_comm, nameLe_tie_iff]

theorem urgGe_tie_iff (x y : Task) : (urgGe x y ∧ urgGe y x) ↔ x.urgency = y.urgency := by
  rw [urgGe, urgGe, and_comm, urgLe_tie_iff]

theorem taskDueGe_tie_iff (x y : Task) : (taskDueGe x y ∧ taskDueGe y x) ↔ x.due = y.due := by
  rw [taskDueGe, taskDueGe, and_comm, taskDueLe_tie_iff]

theorem lexRel_total {α : Type} {f g : α → α → Prop}
    (hf : ∀ a b, f a b ∨ f b a) (hg : ∀ a b, g a b ∨ g b a) :
    ∀ a b, lexRel f g a b ∨ lexRel f g b a := by
  intro a b
  by_cases hab : f a b
  · by_cases hba : f b a
    · rcases hg a b with h | h
      · exact Or.inl ⟨hab, Or.inr h⟩
      · exact Or.inr ⟨hba, Or.inr h⟩
    · exact Or.inl ⟨hab, Or.inl hba⟩
  · rcases hf a b with h | h
    · exact absurd h hab
    · exact Or.inr ⟨h, Or.inl hab⟩

theorem lexRel_trans {α : Type} {f g : α → α → Prop}
    (hf : ∀ a b c, f a b → f b c → f a c) (hg : ∀ a b c, g a b → g b c → g a c) :
    ∀ a b c, lexRel f g a b → lexRel f g b c → lexRel f g a c := by
  rintro a b c ⟨hab, h1⟩ ⟨hbc, h2⟩
  refine ⟨hf a b c hab hbc, ?_⟩
  by_cases hca : f c a
  · have hba : f b a := hf b c a hbc hca
    have hcb : f c b := hf c a b hca hab
    have g1 : g a b := h1.resolve_left (not_not_intro hba)
    have g2 : g b c := h2.resolve_left (not_not_intro hcb)
    exact Or.inr (hg a b c g1 g2)
  · exact Or.inl hca

theorem lexRel_tie_iff {α : Type} {f g : α → α → Prop} {a b : α} :
    (lexRel f g a b ∧ lexRel f g b a) ↔ ((f a b ∧ f b a) ∧ (g a b ∧ g b a)) := by
  constructor
  · rintro ⟨⟨hab, h1⟩, ⟨hba, h2⟩⟩
    exact ⟨⟨hab, hba⟩,
      h1.resolve_left (not_not_intro hba), h2.resolve_left (not_not_intro hab)⟩
  · rintro ⟨⟨hab, hba⟩, ⟨gab, gba⟩⟩
    exact ⟨⟨hab, Or.inr gab⟩, ⟨hba, Or.inr gba⟩⟩

theorem due_none_of_mem_withoutDate {l : List Task} {a : Task}
    (ha : a ∈ withoutDate l) : a.due = none := by
  have h2 := (List.mem_filter.mp ha).2
  cases hda : a.due with
  | none => rfl
  | some v => rw [hda] at h2; simp at h2

theorem due_isSome_of_mem_sorted_withDate {l : List Task} {a : Task}
    (ha : a ∈ (withDate l).insertionSort taskDueLe) : a.due.isSome = true := by
  rw [List.mem_insertionSort] at ha
  exact (List.mem_filter.mp ha).2

theorem sort_tasks_due_date_total_perm (l : List Task) :
    List.Perm (sort_tasks_due_date_total l) l := by
  unfold sort_tasks_due_date_total withDate withoutDate
  exact ((List.perm_insertionSort taskDueLe _).append_right _).trans
    (List.filter_append_perm _ l)

theorem sort_tasks_due_date_total_pairwise {R : Task → Task → Prop} {l : List Task}
    (h : l.Pairwise R) :
    (sort_tasks_due_date_total l).Pairwise (lexRel taskDueLe R) := by
  unfold sort_tasks_due_date_total
  rw [List.pairwise_append]
  refine ⟨?_, ?_, ?_⟩
  · exact insertionSort_pairwise_lex taskDueLe taskDueLe_total taskDueLe_trans
      (h.filter _)
  · apply (h.filter _).imp_of_mem
    intro a b ha hb hr
    have ha' : a.due = none := due_none_of_mem_withoutDate ha
    have hb' : b.due = none := due_none_of_mem_withoutDate hb
    refine ⟨?_, Or.inr hr⟩
    unfold taskDueLe
    rw [ha', hb']
    simp [dueLe]
  · intro a ha b hb
    have ha' : a.due.isSome = true := due_isSome_of_mem_sorted_withDate ha
    have hb' : b.due = none := due_none_of_mem_withoutDate hb
    obtain ⟨v, hv⟩ := Option.isSome_iff_exists.mp ha'
    refine ⟨?_, Or.inl ?_⟩
    · unfold taskDueLe
      rw [hv, hb']
      simp [dueLe]
    · unfold taskDueLe
      rw [hv, hb']
      simp [dueLe]

theorem sort_tasks_due_date_total_filter (p : Task → Bool) (d : Option Int)
    (hd : ∀ x, p x = true → x.due = d) (l : List Task) :
    (sort_tasks_due_date_total l).filter p = l.filter p := by
  unfold sort_tasks_due_date_total
  rw [List.filter_append]
  cases d with
  | some v =>
    have h1 : ((withDate l).insertionSort taskDueLe).filter p = (withDate l).filter p := by
      apply insertionSort_filter
      intro x y hx hy
      unfold taskDueLe
      rw [hd x hx, hd y hy]
      simp [dueLe]
    have h2 : (withoutDate l).filter p = [] := by
      rw [List.filter_eq_nil_iff]
      intro a ha hpa
      have hnone := due_none_of_mem_withoutDate ha
      rw [hd a hpa] at hnone
      simp at hnone
    rw [h1, h2, List.append_nil]
    unfold withDate
    rw [List.filter_filter]
    apply List.filter_congr
    intro x hx
    cases hpx : p x
    · simp
    · rw [hd x (by rw [hpx])]
      simp
  | none =>
    have h1 : ((withDate l).insertionSort taskDueLe).filter p = [] := by
      rw [List.filter_eq_nil_iff]
      intro a ha hpa
      have ha' := due_isSome_of_mem_sorted_withDate ha
      rw [hd a hpa] at ha'
      simp at ha'
    have h2 : (withoutDate l).filter p = l.filter p := by
      unfold withoutDate
      rw [List.filter_filter]
      apply List.filter_congr
      intro x hx
      cases hpx : p x
      · simp
      · rw [hd x (by rw [hpx])]
        simp
    rw [h1, h2, List.nil_append]

theorem nameGe_total : ∀ a b : Task, nameGe a b ∨ nameGe b a :=
  fun a b => nameLe_total b a

theorem nameGe_trans : ∀ a b c : Task, nameGe a b → nameGe b c → nameGe a c :=
  fun a b c h1 h2 => nameLe_trans c b a h2 h1

theorem urgGe_total : ∀ a b : Task, urgGe a b ∨ urgGe b a :=
  fun a b => urgLe_total b a

theorem urgGe_trans : ∀ a b c : Task, urgGe a b → urgGe b c → urgGe a c :=
  fun a b c h1 h2 => urgLe_trans c b a h2 h1

theorem taskDueGe_total : ∀ a b : Task, taskDueGe a b ∨ taskDueGe b a :=
  fun a b => taskDueLe_total b a

theorem taskDueGe_trans : ∀ a b c : Task, taskDueGe a b → taskDueGe b c → taskDueGe a c :=
  fun a b c h1 h2 => taskDueLe_trans c b a h2 h1

theorem modeCmp_total (m : SortMode) : ∀ a b, modeCmp m a b ∨ modeCmp m b a := by
  cases m with
  | UrgencyAscending =>
    exact lexRel_total urgLe_total (lexRel_total taskDueLe_total nameLe_total)
  | UrgencyDescending =>
    exact lexRel_total urgGe_total (lexRel_total taskDueLe_total nameLe_total)
  | DaysLeftAscending =>
    exact lexRel_total taskDueLe_total (lexRel_total urgGe_total nameLe_total)
  | DaysLeftDescending =>
    exact lexRel_total taskDueGe_total (lexRel_total urgGe_total nameLe_total)
  | NameAscending =>
    exact lexRel_total nameLe_total (lexRel_total urgGe_total taskDueLe_total)
  | NameDescending =>
    exact lexRel_total nameGe_total (lexRel_total urgGe_total taskDueLe_total)

theorem modeCmp_tie_iff (m : SortMode) (x y : Task) :
    (modeCmp m x y ∧ modeCmp m y x) ↔
      (x.name = y.name ∧ x.urgency = y.urgency ∧ x.due = y.due) := by
  cases m with
  | UrgencyAscending =>
    show (cmpUA x y ∧ cmpUA y x) ↔ _
    rw [cmpUA, lexRel_tie_iff, lexRel_tie_iff, urgLe_tie_iff, taskDueLe_tie_iff,
      nameLe_tie_iff]
    tauto
  | UrgencyDescending =>
    show (cmpUD x y ∧ cmpUD y x) ↔ _
    rw [cmpUD, lexRel_tie_iff, lexRel_tie_iff, urgGe_tie_iff, taskDueLe_tie_iff,
      nameLe_tie_iff]
    tauto
  | DaysLeftAscending =>
    show (cmpDLA x y ∧ cmpDLA y x) ↔ _
    rw [cmpDLA, lexRel_tie_iff, lexRel_tie_iff, taskDueLe_tie_iff, urgGe_tie_iff,
      nameLe_tie_iff]
    tauto
  | DaysLeftDescending =>
    show (cmpDLD x y ∧ cmpDLD y x) ↔ _
    rw [cmpDLD, lexRel_tie_iff, lexRel_tie_iff, taskDueGe_tie_iff, urgGe_tie_iff,
      nameLe_tie_iff]
    tauto
  | NameAscending =>
    show (cmpNA x y ∧ cmpNA y x) ↔ _
    rw [cmpNA, lexRel_tie_iff, lexRel_tie_iff, nameLe_tie_iff, urgGe_tie_iff,
      taskDueLe_tie_iff]
  | NameDescending =>
    show (cmpND x y ∧ cmpND y x) ↔ _
    rw [cmpND, lexRel_tie_iff, lexRel_tie_iff, nameGe_tie_iff, urgGe_tie_iff,
      taskDueLe_tie_iff]

theorem sort_tasks_name_perm (l : List Task) : List.Perm (sort_tasks_name l) l :=
  List.perm_insertionSort nameLe l

theorem sort_tasks_urgency_perm (l : List Task) : List.Perm (sort_tasks_urgency l) l :=
  List.perm_insertionSort urgLe l

theorem sort_tasks_total_perm (l : List Task) (m : SortMode) :
    List.Perm (sort_tasks_total l m) l := by
  cases m with
  | UrgencyAscending =>
    exact (sort_tasks_urgency_perm _).trans
      ((sort_tasks_due_date_total_perm _).trans (sort_tasks_name_perm l))
  | UrgencyDescending =>
    exact (List.reverse_perm _).trans ((sort_tasks_urgency_perm _).trans
      ((List.reverse_perm _).trans
        ((sort_tasks_due_date_total_perm _).trans (sort_tasks_name_perm l))))
  | DaysLeftAscending =>
    exact (sort_tasks_due_date_total_perm _).trans ((List.reverse_perm _).trans
      ((sort_tasks_urgency_perm _).trans
        ((List.reverse_perm _).trans (sort_tasks_name_perm l))))
  | DaysLeftDescending =>
    exact (List.reverse_perm _).trans ((sort_tasks_due_date_total_perm _).trans
      ((sort_tasks_urgency_perm _).trans
        ((List.reverse_perm _).trans (sort_tasks_name_perm l))))
  | NameAscending =>
    exact (sort_tasks_name_perm _).trans ((List.reverse_perm _).trans
      ((sort_tasks_urgency_perm _).trans
        ((List.reverse_perm _).trans (sort_tasks_due_date_total_perm l))))
  | NameDescending =>
    exact (List.reverse_perm _).trans ((sort_tasks_name_perm _).trans
      ((sort_tasks_urgency_perm _).trans
        ((List.reverse_perm _).trans (sort_tasks_due_date_total_perm l))))

theorem sort_tasks_name_pairwise {R : Task → Task → Prop} {l : List Task}
    (h : l.Pairwise R) : (sort_tasks_name l).Pairwise (lexRel nameLe R) :=
  insertionSort_pairwise_lex nameLe nameLe_total nameLe_trans h

theorem sort_tasks_urgency_pairwise {R : Task → Task → Prop} {l : List Task}
    (h : l.Pairwise R) : (sort_tasks_urgency l).Pairwise (lexRel urgLe R) :=
  insertionSort_pairwise_lex urgLe urgLe_total urgLe_trans h

theorem sort_tasks_total_pairwise (l : List Task) (m : SortMode) :
    (sort_tasks_total l m).Pairwise (modeCmp m) := by
  have h0 : l.Pairwise (fun _ _ => True) := pairwise_trivial l
  have hn : (sort_tasks_name l).Pairwise nameLe :=
    (sort_tasks_name_pairwise h0).imp (fun h => h.1)
  cases m with
  | UrgencyAscending =>
    exact sort_tasks_urgency_pairwise (sort_tasks_due_date_total_pairwise hn)
  | UrgencyDescending =>
    have h1 := sort_tasks_due_date_total_pairwise hn
    have h2 : (sort_tasks_due_date_total (sort_tasks_name l)).reverse.Pairwise
        (fun a b => lexRel taskDueLe nameLe b a) := List.pairwise_reverse.mpr h1
    have h3 := sort_tasks_urgency_pairwise h2
    exact List.pairwise_reverse.mpr h3
  | DaysLeftAscending =>
    have h1 : (sort_tasks_name l).reverse.Pairwise nameGe := List.pairwise_reverse.mpr hn
    have h2 := sort_tasks_urgency_pairwise h1
    have h3 : (sort_tasks_urgency (sort_tasks_name l).reverse).reverse.Pairwise
        (lexRel urgGe nameLe) := List.pairwise_reverse.mpr h2
    exact sort_tasks_due_date_total_pairwise h3
  | DaysLeftDescending =>
    have h1 : (sort_tasks_name l).reverse.Pairwise nameGe := List.pairwise_reverse.mpr hn
    have h2 := sort_tasks_urgency_pairwise h1
    have h3 := sort_tasks_due_date_total_pairwise h2
    exact List.pairwise_reverse.mpr h3
  | NameAscending =>
    have h1 : (sort_tasks_due_date_total l).Pairwise taskDueLe :=
      (sort_tasks_due_date_total_pairwise h0).imp (fun h => h.1)
    have h2 : (sort_tasks_due_date_total l).reverse.Pairwise taskDueGe :=
      List.pairwise_reverse.mpr h1
    have h3 := sort_tasks_urgency_pairwise h2
    have h4 : (sort_tasks_urgency (sort_tasks_due_date_total l).reverse).reverse.Pairwise
        (lexRel urgGe taskDueLe) := List.pairwise_reverse.mpr h3
    exact sort_tasks_name_pairwise h4
  | NameDescending =>
    have h1 : (sort_tasks_due_date_total l).Pairwise taskDueLe :=
      (sort_tasks_due_date_total_pairwise h0).imp (fun h => h.1)
    have h2 : (sort_tasks_due_date_total l).reverse.Pairwise taskDueGe :=
      List.pairwise_reverse.mpr h1
    have h3 := sort_tasks_urgency_pairwise h2
    have h4 := sort_tasks_name_pairwise h3
    exact List.pairwise_reverse.mpr h4

theorem sort_tasks_total_filter (l : List Task) (m : SortMode) (x : Task) :
    (sort_tasks_total l m).filter (sameKeys x) = l.filter (sameKeys x) := by
  have hkeys : ∀ y : Task, sameKeys x y = true →
      x.name = y.name ∧ x.urgency = y.urgency ∧ x.due = y.due :=
    fun y hy => of_decide_eq_true hy
  have hnm : ∀ a b : Task, sameKeys x a = true → sameKeys x b = true → nameLe a b := by
    intro a b ha hb
    unfold nameLe
    rw [← (hkeys a ha).1, ← (hkeys b hb).1]
  have hug : ∀ a b : Task, sameKeys x a = true → sameKeys x b = true → urgLe a b := by
    intro a b ha hb
    unfold urgLe
    rw [← (hkeys a ha).2.1, ← (hkeys b hb).2.1]
  have hdx : ∀ y : Task, sameKeys x y = true → y.due = x.due :=
    fun y hy => ((hkeys y hy).2.2).symm
  have hu : ∀ L : List Task,
      (sort_tasks_urgency L).filter (sameKeys x) = L.filter (sameKeys x) :=
    fun L => insertionSort_filter urgLe _ hug L
  have hnf : ∀ L : List Task,
      (sort_tasks_name L).filter (sameKeys x) = L.filter (sameKeys x) :=
    fun L => insertionSort_filter nameLe _ hnm L
  have hd : ∀ L : List Task,
      (sort_tasks_due_date_total L).filter (sameKeys x) = L.filter (sameKeys x) :=
    fun L => sort_tasks_due_date_total_filter _ x.due hdx L
  cases m <;>
    simp only [sort_tasks_total, List.filter_reverse, hu, hnf, hd, List.reverse_reverse]

theorem sort_tasks_total_idem (l : List Task) (m : SortMode) :
    sort_tasks_total (sort_tasks_total l m) m = sort_tasks_total l m := by
  apply eq_of_sorted_of_classes (modeCmp m) (modeCmp_total m)
  · exact sort_tasks_total_perm (sort_tasks_total l m) m
  · exact sort_tasks_total_pairwise _ m
  · exact sort_tasks_total_pairwise _ m
  · intro x
    have hconv : ∀ L : List Task,
        L.filter (fun y => decide (modeCmp m x y ∧ modeCmp m y x)) =
          L.filter (sameKeys x) := by
      intro L
      apply List.filter_congr
      intro y _
      exact decide_eq_decide.mpr (modeCmp_tie_iff m x y)
    rw [hconv, hconv]
    exact sort_tasks_total_filter (sort_tasks_total l m) m x

theorem filter_eq_of_perm_of_subsingleton {α : Type} {l₁ l₂ : List α} (p : α → Bool)
    (hp : List.Perm l₁ l₂) (hlen : (l₂.filter p).length ≤ 1) :
    l₁.filter p = l₂.filter p := by
  have hperm := hp.filter p
  rcases hfe : l₂.filter p with _ | ⟨a, t⟩
  · rw [hfe] at hperm
    exact hperm.eq_nil
  · rw [hfe] at hperm hlen
    have ht : t = [] := by
      cases t with
      | nil => rfl
      | cons b t2 =>
        exfalso
        simp [List.length_cons] at hlen
    subst ht
    exact List.perm_singleton.mp hperm

theorem length_filter_due_le_one {tasks : List Task}
    (h : tasks.Pairwise fun a b => a.due ≠ b.due) (v : Option Int) :
    (tasks.filter fun y => decide (y.due = v)).length ≤ 1 := by
  induction tasks with
  | nil => simp
  | cons a t ih =>
    obtain ⟨ha, ht⟩ := List.pairwise_cons.mp h
    rw [List.filter_cons]
    by_cases hav : a.due = v
    · rw [if_pos (decide_eq_true hav)]
      have hnil : (t.filter fun y => decide (y.due = v)) = [] := by
        rw [List.filter_eq_nil_iff]
        intro b hb hpb
        exact ha b hb (hav.trans (of_decide_eq_true hpb).symm)
      rw [hnil]
      simp
    · rw [if_neg (fun hcond => hav (of_decide_eq_true hcond))]
      exact ih ht

theorem lexDN_imp_dueThenNameAsc {a b : Task} (h : lexRel taskDueLe nameLe a b) :
    dueThenNameAsc a b := by
  obtain ⟨h1, h2⟩ := h
  cases ha : a.due with
  | some da =>
    cases hb : b.due with
    | some db =>
      simp only [dueThenNameAsc, ha, hb]
      have h1' : da ≤ db := by
        unfold taskDueLe at h1
        rw [ha, hb] at h1
        exact h1
      rcases h2 with h2 | h2
      · left
        have h2' : ¬ db ≤ da := by
          intro hle
          apply h2
          unfold taskDueLe
          rw [ha, hb]
          exact hle
        omega
      · rcases lt_or_eq_of_le h1' with hlt | heq
        · exact Or.inl hlt
        · exact Or.inr ⟨heq, h2⟩
    | none =>
      simp only [dueThenNameAsc, ha, hb]
  | none =>
    cases hb : b.due with
    | some db =>
      exfalso
      unfold taskDueLe at h1
      rw [ha, hb] at h1
      simp [dueLe] at h1
    | none =>
      simp only [dueThenNameAsc, ha, hb]
      have hba : taskDueLe b a := by
        unfold taskDueLe
        rw [ha, hb]
        simp [dueLe]
      exact h2.resolve_left (not_not_intro hba)

theorem cmpUD_imp_urgencyDescOrder {a b : Task} (h : cmpUD a b) :
    urgencyDescOrder a b := by
  obtain ⟨h1, h2⟩ := h
  rcases h2 with h2 | h2
  · left
    have hnle : ¬ a.urgency.toNat ≤ b.urgency.toNat := h2
    omega
  · by_cases hEq : a.urgency = b.urgency
    · exact Or.inr ⟨hEq, lexDN_imp_dueThenNameAsc h2⟩
    · left
      have h1' : b.urgency.toNat ≤ a.urgency.toNat := h1
      have hne : a.urgency.toNat ≠ b.urgency.toNat :=
        fun hh => hEq (Urgency.toNat_inj hh)
      omega

theorem taskDueLe_imp_datedBeforeUndatedAsc {a b : Task} (h : taskDueLe a b) :
    datedBeforeUndatedAsc a b := by
  unfold taskDueLe at h
  cases ha : a.due <;> cases hb : b.due <;> rw [ha, hb] at h <;>
    simp_all [datedBeforeUndatedAsc, dueLe]

theorem taskDueGe_imp_undatedFirstDesc {a b : Task} (h : taskDueGe a b) :
    undatedFirstDesc a b := by
  unfold taskDueGe taskDueLe at h
  cases ha : a.due <;> cases hb : b.due <;> rw [ha, hb] at h <;>
    simp_all [undatedFirstDesc, dueLe]

/-- C1: sorting with UrgencyDescending orders tasks primarily by urgency
descending (High before Medium before Low); among tasks of equal urgency,
tasks with a due date come before tasks without one, ordered by ascending
due date; remaining ties are ordered by ascending name.  In particular, for
input `[A:Medium, B:High, C:Low]`, all without due dates, the output is
`[B, A, C]`. -/
theorem C1_urgency_descending :
    (∀ (tasks out : List Task), sort_tasks tasks .UrgencyDescending = some out →
      out.Pairwise urgencyDescOrder) ∧
    sort_tasks exMHL .UrgencyDescending = some exMHL_ud := by
  constructor
  · intro tasks out h
    rw [sort_tasks_eq] at h
    injection h with h
    subst h
    exact (sort_tasks_total_pairwise tasks .UrgencyDescending).imp
      (fun h => cmpUD_imp_urgencyDescOrder h)
  · decide

theorem C1_urgency_descending_witness :
    sort_tasks exMHL .UrgencyDescending = some exMHL_ud ∧
    exMHL_ud.Pairwise urgencyDescOrder :=
  ⟨by decide, C1_urgency_descending.1 exMHL exMHL_ud (by decide)⟩

/-- C2: sorting with DaysLeftAscending places every task with a due date
before every task lacking one, ordering dated tasks by ascending due date.
In particular, `[A:no-due, B:due=2024-01-02, C:due=2024-01-01]` sorts to
`[C, B, A]`. -/
theorem C2_days_left_ascending :
    (∀ (tasks out : List Task), sort_tasks tasks .DaysLeftAscending = some out →
      out.Pairwise datedBeforeUndatedAsc) ∧
    sort_tasks exDates .DaysLeftAscending = some exDates_dla := by
  constructor
  · intro tasks out h
    rw [sort_tasks_eq] at h
    injection h with h
    subst h
    exact (sort_tasks_total_pairwise tasks .DaysLeftAscending).imp
      (fun h => taskDueLe_imp_datedBeforeUndatedAsc h.1)
  · decide

theorem C2_days_left_ascending_witness :
    sort_tasks exDates .DaysLeftAscending = some exDates_dla ∧
    exDates_dla.Pairwise datedBeforeUndatedAsc :=
  ⟨by decide, C2_days_left_ascending.1 exDates exDates_dla (by decide)⟩

/-- C3: sorting with DaysLeftDescending places every task without a due
date before every task with one, and orders the dated tasks by descending
due date (asymmetric with DaysLeftAscending, which places undated tasks
last). -/
theorem C3_days_left_descending :
    ∀ (tasks out : List Task), sort_tasks tasks .DaysLeftDescending = some out →
      out.Pairwise undatedFirstDesc := by
  intro tasks out h
  rw [sort_tasks_eq] at h
  injection h with h
  subst h
  exact (sort_tasks_total_pairwise tasks .DaysLeftDescending).imp
    (fun h => taskDueGe_imp_undatedFirstDesc h.1)

theorem C3_days_left_descending_witness :
    sort_tasks exMixed .DaysLeftDescending = some exMixed_dld ∧
    exMixed_dld.Pairwise undatedFirstDesc :=
  ⟨by decide, C3_days_left_descending exMixed exMixed_dld (by decide)⟩

/-- C4 counterexample: the DaysLeftAscending pipeline and the same pipeline
with the urgency pass removed differ on two tasks sharing a due date: the
full pipeline puts the High-urgency task first, the pass-free pipeline
keeps name order. -/
theorem C4_counterexample :
    sort_tasks exShared .DaysLeftAscending =
      some [mkTask 1 (some 5) .High, mkTask 0 (some 5) .Low] ∧
    daysLeftAscending_noUrgency exShared =
      some [mkTask 0 (some 5) .Low, mkTask 1 (some 5) .High] ∧
    sort_tasks exShared .DaysLeftAscending ≠ daysLeftAscending_noUrgency exShared := by
  refine ⟨by decide, by decide, by decide⟩

/-- C4 amended: the urgency pass of the DaysLeftAscending pipeline is a net
no-op only when no two tasks share a due-date key (in particular at most
one task is undated); under that hypothesis the pipeline equals the same
pipeline with the urgency pass removed.  (In general it is not a no-op:
among tasks with equal due-date keys the relative output order follows
urgency descending, see the counterexample.) -/
theorem C4_amended (tasks : List Task)
    (hdist : tasks.Pairwise fun a b => a.due ≠ b.due) :
    sort_tasks tasks .DaysLeftAscending = daysLeftAscending_noUrgency tasks := by
  rw [sort_tasks_eq]
  rw [show daysLeftAscending_noUrgency tasks =
    some (sort_tasks_due_date_total ((sort_tasks_name tasks).reverse.reverse)) from
    sort_tasks_due_date_eq _]
  congr 1
  have hperm1 : List.Perm (sort_tasks_total tasks .DaysLeftAscending) tasks :=
    sort_tasks_total_perm tasks .DaysLeftAscending
  have hperm2 : List.Perm
      (sort_tasks_due_date_total ((sort_tasks_name tasks).reverse.reverse)) tasks :=
    (sort_tasks_due_date_total_perm _).trans ((List.reverse_perm _).trans
      ((List.reverse_perm _).trans (sort_tasks_name_perm tasks)))
  apply eq_of_sorted_of_classes taskDueLe taskDueLe_total
  · exact hperm1.trans hperm2.symm
  · exact (sort_tasks_total_pairwise tasks .DaysLeftAscending).imp (fun h => h.1)
  · exact (sort_tasks_due_date_total_pairwise
      (pairwise_trivial ((sort_tasks_name tasks).reverse.reverse))).imp (fun h => h.1)
  · intro x
    have hconv : ∀ L : List Task,
        L.filter (fun y => decide (taskDueLe x y ∧ taskDueLe y x)) =
          L.filter (fun y => decide (y.due = x.due)) := by
      intro L
      apply List.filter_congr
      intro y _
      exact decide_eq_decide.mpr ((taskDueLe_tie_iff x y).trans eq_comm)
    have hlen := length_filter_due_le_one hdist x.due
    rw [hconv, hconv,
      filter_eq_of_perm_of_subsingleton _ hperm1 hlen,
      filter_eq_of_perm_of_subsingleton _ hperm2 hlen]

theorem C4_amended_witness :
    exDistinct.Pairwise (fun a b => a.due ≠ b.due) ∧
    sort_tasks exDistinct .DaysLeftAscending =
      daysLeftAscending_noUrgency exDistinct :=
  ⟨by decide, C4_amended exDistinct (by decide)⟩

/-- C5: in the output of NameAscending any two tasks appear in ascending
lexicographic order of their names, and in the output of NameDescending in
the exact reverse order, regardless of urgency and due date; for tasks with
distinct names this fixes their relative order completely. -/
theorem C5_name_modes :
    (∀ (tasks out : List Task), sort_tasks tasks .NameAscending = some out →
      out.Pairwise fun a b => a.name ≤ b.name) ∧
    (∀ (tasks out : List Task), sort_tasks tasks .NameDescending = some out →
      out.Pairwise fun a b => b.name ≤ a.name) := by
  constructor
  · intro tasks out h
    rw [sort_tasks_eq] at h
    injection h with h
    subst h
    exact (sort_tasks_total_pairwise tasks .NameAscending).imp (fun h => h.1)
  · intro tasks out h
    rw [sort_tasks_eq] at h
    injection h with h
    subst h
    exact (sort_tasks_total_pairwise tasks .NameDescending).imp (fun h => h.1)

theorem C5_name_modes_witness :
    (sort_tasks exNames .NameAscending = some exNames_na ∧
     exNames_na.Pairwise fun a b => a.name ≤ b.name) ∧
    (sort_tasks exNames .NameDescending = some exNames ∧
     exNames.Pairwise fun a b => b.name ≤ a.name) :=
  ⟨⟨by decide, C5_name_modes.1 exNames exNames_na (by decide)⟩,
   ⟨by decide, C5_name_modes.2 exNames exNames (by decide)⟩⟩

/-- C6: for every input and every mode the output of `sort_tasks` is a
permutation of the input (same multiset of unchanged task values, nothing
duplicated or lost); the empty collection yields the empty sequence for
every mode. -/
theorem C6_permutation :
    (∀ (tasks : List Task) (m : SortMode) (out : List Task),
      sort_tasks tasks m = some out → List.Perm out tasks) ∧
    ∀ m : SortMode, sort_tasks ([] : List Task) m = some [] := by
  constructor
  · intro tasks m out h
    rw [sort_tasks_eq] at h
    injection h with h
    subst h
    exact sort_tasks_total_perm tasks m
  · intro m
    cases m <;> rfl

theorem C6_permutation_witness :
    sort_tasks exMHL .UrgencyAscending = some exMHL_ua ∧
    List.Perm exMHL_ua exMHL :=
  ⟨by decide, C6_permutation.1 exMHL .UrgencyAscending exMHL_ua (by decide)⟩

/-- C7: the list filter retains a task if and only if it is excluded by
neither rule: a completed task is excluded when the completed-items flag is
not set, and a task whose due date is strictly before `today` is excluded
when the overdue flag is not set; a task with no due date is never excluded
by the overdue rule. -/
theorem C7_list_filter (completed overdue : Bool) (today : Int) (task : Task) :
    list_filter completed overdue today task = true ↔
      ((task.completed = true → completed = true) ∧
       ∀ d : Int, task.due = some d → d < today → overdue = true) := by
  cases hdue : task.due <;> cases hc : task.completed <;> cases completed <;>
    cases overdue <;> simp [list_filter, hdue, hc, decide_eq_true_iff]

/-- C8: `sort_tasks` is idempotent for every mode: re-sorting its output
with the same mode returns the identical sequence. -/
theorem C8_idempotent (tasks : List Task) (m : SortMode) (out : List Task)
    (h : sort_tasks tasks m = some out) : sort_tasks out m = some out := by
  rw [sort_tasks_eq] at h
  injection h with h
  subst h
  rw [sort_tasks_eq, sort_tasks_total_idem]

theorem C8_idempotent_witness :
    sort_tasks exMHL .UrgencyDescending = some exMHL_ud ∧
    sort_tasks exMHL_ud .UrgencyDescending = some exMHL_ud :=
  ⟨by decide, C8_idempotent exMHL .UrgencyDescending exMHL_ud (by decide)⟩

/-- C9 counterexample: on a missing store root the reader does yield the
empty collection, but the `list` command panics (aborts with a failure)
before reaching the empty-result report, so it does not report the
empty-result case. -/
theorem C9_counterexample :
    get_tasks .missing = Except.ok ([] : List Task) ∧
    list_command .missing .UrgencyDescending false false 0 =
      ListOutcome.panicked
        "The task directory is empty, add some by running: `dooit-rs add`" ∧
    list_command .missing .UrgencyDescending false false 0 ≠ ListOutcome.noTasks := by
  refine ⟨rfl, rfl, by decide⟩

/-- C9 amended: when the task store root directory does not exist the store
reader yields an empty collection (`Ok(vec![])`, not an error), but the
`list` command does not treat this as an empty result: it aborts with a
panic (whose message says the task directory is empty and suggests running
`add`) before invoking the reader. -/
theorem C9_amended (sort : SortMode) (completed overdue : Bool) (today : Int) :
    get_tasks .missing = Except.ok ([] : List Task) ∧
    list_command .missing sort completed overdue today =
      ListOutcome.panicked
        "The task directory is empty, add some by running: `dooit-rs add`" :=
  ⟨rfl, rfl⟩

/-- C10: `sort_tasks` is total: it returns a result (never the `none` that
models a panic) for every collection and mode; in particular the
`task.due.expect` inside the due-date pass is unreachable, because every
task in the dated partition has its `due` field present. -/
theorem C10_sort_total (tasks : List Task) (m : SortMode) :
    (∃ out, sort_tasks tasks m = some out) ∧
    ∀ t ∈ (tasks.partition fun task => task.due.isSome).1, t.due.isSome = true := by
  constructor
  · exact ⟨sort_tasks_total tasks m, sort_tasks_eq tasks m⟩
  · intro t ht
    rw [List.partition_eq_filter_filter] at ht
    exact (List.mem_filter.mp ht).2

theorem C10_sort_total_witness :
    (∃ out, sort_tasks exMixed .UrgencyDescending = some out) ∧
    (mkTask 0 (some 5) .Low).due.isSome = true :=
  ⟨(C10_sort_total exMixed .UrgencyDescending).1,
   (C10_sort_total exMixed .UrgencyDescending).2 (mkTask 0 (some 5) .Low) (by decide)⟩

end Dooit
